import Mathlib

/-!
Shallow embedding of the synthetic fraud-network generation pipeline:
the function generate_synthetic_network of syntheticdata.py (Barabási–Albert
base topology handed in as a parameter, edge top-up loop, role and belief
assignment) and the function add_fraud_accomplice_edges of
assign_roles_and_visualize.py (collusion augmentation).

Randomness: the Python code draws from the process-global random module,
seeded once by random.seed(42).  The embedding threads an explicit PRNG
state (a linear congruential generator standing for the seeded Mersenne
Twister state); seeding with 42 corresponds to the state Rng.mk 42.
The while-loop of the top-up stage is modelled with an explicit iteration
budget (fuel); exhausting every budget models non-termination.
-/

namespace SynthNet

/-- Exact fraction arithmetic standing for the Python float values of the
source (weights, probabilities, beliefs); kept unnormalized so that every
operation is a structural computation.  Equality of copied values is
structural equality, matching the claims, which only ever compare values
that were copied verbatim or computed by the same expression. -/
structure Frac where
  num : Int
  den : Nat
deriving DecidableEq, Repr

def Frac.add (a b : Frac) : Frac :=
  Frac.mk (a.num * (b.den : Int) + b.num * (a.den : Int)) (a.den * b.den)

def Frac.mul (a b : Frac) : Frac :=
  Frac.mk (a.num * b.num) (a.den * b.den)

/-- Strict comparison a < b by cross multiplication (denominators are positive wherever the
pipeline compares values). -/
def Frac.blt (a b : Frac) : Bool :=
  a.num * (b.den : Int) < b.num * (a.den : Int)

/-- Comparison a ≤ b by cross multiplication. -/
def Frac.ble (a b : Frac) : Bool :=
  a.num * (b.den : Int) ≤ b.num * (a.den : Int)

/-- PRNG state standing for the seeded state of Python's random module. -/
structure Rng where
  state : Nat
deriving DecidableEq, Repr

/-- One raw draw from the generator (value, next state). -/
def rngNext (r : Rng) : Nat × Rng :=
  (r.state, Rng.mk ((r.state * 1103515245 + 12345) % 2147483648))

/-- Models random.uniform(0.1, 1.0): a value in [0.1, 1.0]. -/
def randUniform (r : Rng) : Frac × Rng :=
  let p := rngNext r
  (Frac.add (Frac.mk 1 10) (Frac.mul (Frac.mk 9 10) (Frac.mk (p.1 % 1001) 1000)), p.2)

/-- The ordered category list ["Fraud", "Accomplice", "Honest"] used by the
role assignment stage. -/
def stateCategories : List String := ["Fraud", "Accomplice", "Honest"]

/-- Models random.choice(["Fraud", "Accomplice", "Honest"]): a uniform draw
from the three categories. -/
def randChoice3 (r : Rng) : String × Rng :=
  let p := rngNext r
  (stateCategories.getD (p.1 % 3) "Honest", p.2)

/-- Models random.choices(["Fraud","Accomplice","Honest"], weights, k=1)[0]:
cumulative-weight selection; none models the ValueError that
random.choices raises when the total weight is not positive. -/
def randChoices3 (wF wA wH : Frac) (r : Rng) : Option (String × Rng) :=
  let total := Frac.add (Frac.add wF wA) wH
  if Frac.ble total (Frac.mk 0 1) then none
  else
    let p := rngNext r
    let u := Frac.mul (Frac.mk (p.1 % 1000) 1000) total
    some ((if Frac.blt u wF then "Fraud"
           else if Frac.blt u (Frac.add wF wA) then "Accomplice"
           else "Honest"), p.2)

/-- Models random.sample(l, 2): two elements at distinct positions, drawn
uniformly; none models the ValueError raised when the population has fewer
than two elements. -/
def randSample2 (l : List Nat) (r : Rng) : Option (Nat × Nat × Rng) :=
  if 2 ≤ l.length then
    let p1 := rngNext r
    let i := p1.1 % l.length
    let p2 := rngNext p1.2
    let j0 := p2.1 % (l.length - 1)
    let j := if j0 < i then j0 else j0 + 1
    some (l.getD i 0, l.getD j 0, p2.2)
  else none

/-- Models random.sample(l, k) for k ≤ l.length: k elements at distinct
positions, without replacement. -/
def randSampleK : Nat → List Nat → Rng → List Nat × Rng
  | 0, _, r => ([], r)
  | k + 1, l, r =>
    if l.length = 0 then ([], r)
    else
      let p := rngNext r
      let x := l.getD (p.1 % l.length) 0
      let rest := randSampleK k (l.erase x) p.2
      (x :: rest.1, rest.2)

/-- Node attribute dictionary: the five labeling attributes written by the
role and belief assignment stage.  A field holding none models a key absent
from the node's attribute dict. -/
structure NodeAttrs where
  true_state : Option String := none
  state : Option String := none
  belief_fraud : Option Frac := none
  belief_accomplice : Option Frac := none
  belief_honest : Option Frac := none
deriving DecidableEq, Repr

/-- An undirected networkx graph: nodes with their attribute dicts, in
insertion order, and the stored edge list (each stored once, with an
optional weight attribute).  networkx guarantees at most one stored edge
per unordered pair; that invariant is the predicate SimpleEdges below. -/
structure Graph where
  nodes : List (Nat × NodeAttrs)
  edges : List (Nat × Nat × Option Frac)
deriving DecidableEq, Repr

/-- The list list(G.nodes()) of node identifiers in order. -/
def nodeKeys (G : Graph) : List Nat := G.nodes.map Prod.fst

/-- Lookup G.nodes[n]: the attribute dict of node n, if n is a node of G. -/
def attrsOf (G : Graph) (n : Nat) : Option NodeAttrs :=
  (G.nodes.find? (fun p => p.1 == n)).map Prod.snd

/-- Lookup G.nodes[n].get("true_state"). -/
def trueStateOf (G : Graph) (n : Nat) : Option String :=
  (attrsOf G n).bind (fun a => a.true_state)

/-- Membership of the directed pair (u, v) in the stored edge list; this is
the check (u, v) in existing_edges of the top-up loop. -/
def edgeMemDir (G : Graph) (u v : Nat) : Bool :=
  G.edges.any (fun e => e.1 == u && e.2.1 == v)

/-- Membership G.has_edge(u, v): undirected edge membership. -/
def hasEdge (G : Graph) (u v : Nat) : Bool :=
  edgeMemDir G u v || edgeMemDir G v u

/-- Insertion G.add_edge(u, v, ...): appends the stored edge (only ever called here
when no edge between u and v exists). -/
def addEdge (G : Graph) (u v : Nat) (w : Option Frac) : Graph :=
  Graph.mk G.nodes (G.edges ++ [(u, v, w)])

/-- Edge count G.number_of_edges(). -/
def edgeCount (G : Graph) : Nat := G.edges.length

/-- Two stored edges cover the same unordered node pair. -/
def sameUnorderedPair (e f : Nat × Nat × Option Frac) : Bool :=
  (e.1 == f.1 && e.2.1 == f.2.1) || (e.1 == f.2.1 && e.2.1 == f.1)

/-- No duplicate edges: for every unordered node pair there is at most one
stored edge. -/
def SimpleEdges (G : Graph) : Prop :=
  G.edges.Pairwise (fun e f => sameUnorderedPair e f = false)

instance (G : Graph) : Decidable (SimpleEdges G) :=
  inferInstanceAs (Decidable (G.edges.Pairwise (fun e f => sameUnorderedPair e f = false)))

/-- No edge from a node to itself (as a boolean scan of the edge list). -/
def noSelfLoopB (G : Graph) : Bool :=
  G.edges.all (fun e => !(e.1 == e.2.1))

/-- Result of a pipeline stage: timeout models a while-loop that never
finishes within any iteration budget; keyErr models a KeyError on a missing
dict key; valueErr models a ValueError from the random module. -/
inductive GenResult where
  | timeout : GenResult
  | keyErr : String → GenResult
  | valueErr : GenResult
  | ok : Graph → Rng → GenResult
deriving DecidableEq, Repr

/-- Python dict lookup d[k] (none models a KeyError). -/
def dictGet (d : List (String × Frac)) (k : String) : Option Frac :=
  (d.find? (fun p => p.1 == k)).map Prod.snd

/-- Default initial_belief of generate_synthetic_network. -/
def default_initial_belief : List (String × Frac) :=
  [("Fraud", Frac.mk 1 3), ("Accomplice", Frac.mk 1 3), ("Honest", Frac.mk 1 3)]

/-- Default state_distribution of generate_synthetic_network. -/
def default_state_distribution : List (String × Frac) :=
  [("Fraud", Frac.mk 1 10), ("Accomplice", Frac.mk 2 10), ("Honest", Frac.mk 7 10)]

/-- The attachment parameter m = max(1, target_edges // num_nodes) parameter passed
to the external nx.barabasi_albert_graph call (Python floor division). -/
def baM (target_edges : Int) (num_nodes : Nat) : Int :=
  max 1 (Int.fdiv target_edges num_nodes)

/-- Step 2 of generate_synthetic_network, the edge top-up loop:
while G.number_of_edges() < target_edges: sample two distinct nodes and,
if no edge exists between them in either direction, add an edge with a
uniform random weight.  fuel is the iteration budget of the model; the
loop that the Python code runs is the limit of unbounded fuel, so a result
of timeout at every fuel models non-termination. -/
def topUpLoop (target_edges : Int) (nodes_list : List Nat) :
    Nat → Graph → Rng → GenResult
  | 0, G, r =>
    if (edgeCount G : Int) < target_edges then GenResult.timeout
    else GenResult.ok G r
  | fuel + 1, G, r =>
    if (edgeCount G : Int) < target_edges then
      match randSample2 nodes_list r with
      | none => GenResult.valueErr
      | some (node1, node2, r1) =>
        if !edgeMemDir G node1 node2 && !edgeMemDir G node2 node1 then
          let wr := randUniform r1
          topUpLoop target_edges nodes_list fuel (addEdge G node1 node2 (some wr.1)) wr.2
        else
          topUpLoop target_edges nodes_list fuel G r1
    else GenResult.ok G r

/-- Result of assigning attributes to one node. -/
inductive AttrResult where
  | keyErr : String → AttrResult
  | valueErr : AttrResult
  | ok : NodeAttrs → Rng → AttrResult
deriving DecidableEq, Repr

/-- The body of the step-3 loop of generate_synthetic_network for one node:
true_state by weighted categorical draw over state_distribution, the three
belief fields copied from initial_belief, state by uniform draw.  The dict
lookups follow the evaluation order of the source. -/
def assignOne (state_distribution initial_belief : List (String × Frac))
    (r : Rng) : AttrResult :=
  match dictGet state_distribution "Fraud" with
  | none => AttrResult.keyErr "Fraud"
  | some wF =>
    match dictGet state_distribution "Accomplice" with
    | none => AttrResult.keyErr "Accomplice"
    | some wA =>
      match dictGet state_distribution "Honest" with
      | none => AttrResult.keyErr "Honest"
      | some wH =>
        match randChoices3 wF wA wH r with
        | none => AttrResult.valueErr
        | some (ts, r1) =>
          match dictGet initial_belief "Fraud" with
          | none => AttrResult.keyErr "Fraud"
          | some bF =>
            match dictGet initial_belief "Accomplice" with
            | none => AttrResult.keyErr "Accomplice"
            | some bA =>
              match dictGet initial_belief "Honest" with
              | none => AttrResult.keyErr "Honest"
              | some bH =>
                let sc := randChoice3 r1
                AttrResult.ok
                  (NodeAttrs.mk (some ts) (some sc.1) (some bF) (some bA) (some bH))
                  sc.2

/-- Result of the whole role and belief assignment loop. -/
inductive RolesResult where
  | keyErr : String → RolesResult
  | valueErr : RolesResult
  | ok : List (Nat × NodeAttrs) → Rng → RolesResult
deriving DecidableEq, Repr

/-- Step 3 of generate_synthetic_network: for node in G.nodes(), assign the
five labeling attributes, threading the random state in node order. -/
def assignRolesList (state_distribution initial_belief : List (String × Frac)) :
    List (Nat × NodeAttrs) → Rng → RolesResult
  | [], r => RolesResult.ok [] r
  | (n, _) :: rest, r =>
    match assignOne state_distribution initial_belief r with
    | AttrResult.keyErr k => RolesResult.keyErr k
    | AttrResult.valueErr => RolesResult.valueErr
    | AttrResult.ok a r1 =>
      match assignRolesList state_distribution initial_belief rest r1 with
      | RolesResult.keyErr k => RolesResult.keyErr k
      | RolesResult.valueErr => RolesResult.valueErr
      | RolesResult.ok rest' r2 => RolesResult.ok ((n, a) :: rest') r2

set_option linter.unusedVariables false in
/-- The core of generate_synthetic_network after the external
nx.barabasi_albert_graph(num_nodes, baM target_edges num_nodes) call, whose
result is the parameter base; r is the state of the random module when the
pipeline starts.  Steps 4–6 of the source (reporting prints, graph-level
metadata strings, GraphML write) are observational or external and change
neither nodes nor edges. -/
def generateCore (num_nodes : Nat) (target_edges : Int)
    (initial_belief state_distribution : Option (List (String × Frac)))
    (base : Graph) (r : Rng) (fuel : Nat) : GenResult :=
  let ib := initial_belief.getD default_initial_belief
  let sd := state_distribution.getD default_state_distribution
  let nodes_list := nodeKeys base
  match topUpLoop target_edges nodes_list fuel base r with
  | GenResult.timeout => GenResult.timeout
  | GenResult.keyErr k => GenResult.keyErr k
  | GenResult.valueErr => GenResult.valueErr
  | GenResult.ok G1 r1 =>
    match assignRolesList sd ib G1.nodes r1 with
    | RolesResult.keyErr k => GenResult.keyErr k
    | RolesResult.valueErr => GenResult.valueErr
    | RolesResult.ok ns r2 => GenResult.ok (Graph.mk ns G1.edges) r2

/-- generate_synthetic_network: the source seeds the global random module
with random.seed(42) before any drawing, so every run starts from the same
random state Rng.mk 42.  num_nodes is tied to base through the external
Barabási–Albert call (hypotheses of the theorems below). -/
def generate_synthetic_network (num_nodes : Nat) (target_edges : Int)
    (initial_belief state_distribution : Option (List (String × Frac)))
    (base : Graph) (fuel : Nat) : GenResult :=
  generateCore num_nodes target_edges initial_belief state_distribution base
    (Rng.mk 42) fuel

/-- The accomplice list recomputed inside add_fraud_accomplice_edges:
[n for n in G.nodes if G.nodes[n].get("true_state") == "Accomplice"]. -/
def accomplicesOf (G : Graph) : List Nat :=
  (nodeKeys G).filter (fun n => trueStateOf G n == some "Accomplice")

/-- The inner loop of add_fraud_accomplice_edges: for each sampled
accomplice, add an (unweighted) edge to the fraud node if none exists. -/
def addAccEdges (node : Nat) : List Nat → Graph → Graph
  | [], G => G
  | a :: rest, G =>
    if hasEdge G node a then addAccEdges node rest G
    else addAccEdges node rest (addEdge G node a none)

/-- The body of the outer loop of add_fraud_accomplice_edges for one node of
the iteration. -/
def augmentStep (max_accomplice_edges : Nat) (st : Graph × Rng) (node : Nat) :
    Graph × Rng :=
  if trueStateOf st.1 node == some "Fraud" then
    let accomplices := accomplicesOf st.1
    let sr := randSampleK (min max_accomplice_edges accomplices.length)
      accomplices st.2
    (addAccEdges node sr.1 st.1, sr.2)
  else st

/-- add_fraud_accomplice_edges of assign_roles_and_visualize.py: for every
node labeled Fraud, sample min(max_accomplice_edges, |accomplices|)
accomplices without replacement and link the fraud node to each sampled
accomplice not already adjacent to it.  Adding edges never changes the node
set, so iterating over the initial node list matches iterating over
G.nodes while edges are inserted. -/
def add_fraud_accomplice_edges (G : Graph) (max_accomplice_edges : Nat)
    (r : Rng) : Graph × Rng :=
  (nodeKeys G).foldl (augmentStep max_accomplice_edges) (G, r)

/-! ### Derived observations used to state the claims -/

/-- A role value drawn from exactly the three-element category set. -/
def isValidStateOpt : Option String → Bool
  | some s => s == "Fraud" || s == "Accomplice" || s == "Honest"
  | none => false

/-- The node carries all five labeling attributes and both role fields are
members of exactly the category set. -/
def nodeFullyLabeled (a : NodeAttrs) : Bool :=
  isValidStateOpt a.true_state && isValidStateOpt a.state &&
  a.belief_fraud.isSome && a.belief_accomplice.isSome && a.belief_honest.isSome

/-- The sum of the three belief fields of a node, when all are present. -/
def beliefSum (a : NodeAttrs) : Option Frac :=
  match a.belief_fraud, a.belief_accomplice, a.belief_honest with
  | some x, some y, some z => some (Frac.add (Frac.add x y) z)
  | _, _, _ => none

/-- The sum of the three entries of a belief prior. -/
def priorSum (d : List (String × Frac)) : Option Frac :=
  match dictGet d "Fraud", dictGet d "Accomplice", dictGet d "Honest" with
  | some x, some y, some z => some (Frac.add (Frac.add x y) z)
  | _, _, _ => none

/-- The three belief fields equal the corresponding entries of the
configured prior, and their sum equals the sum of the prior's entries. -/
def beliefsOk (ib : List (String × Frac)) (a : NodeAttrs) : Bool :=
  (a.belief_fraud == dictGet ib "Fraud") &&
  (a.belief_accomplice == dictGet ib "Accomplice") &&
  (a.belief_honest == dictGet ib "Honest") &&
  (beliefSum a == priorSum ib)

/-- The pipeline finished normally and returned a graph. -/
def isOkResult : GenResult → Bool
  | GenResult.ok _ _ => true
  | _ => false

/-! ### Concrete fixtures for witnesses and counterexamples -/

/-- The graph that nx.barabasi_albert_graph(2, 1) returns: nodes 0 and 1
(no attributes yet) and the single edge 0–1 (no weight attribute).  This is
the base topology of the concrete scenarios below, for which
baM target_edges 2 = 1. -/
def baseBA2 : Graph :=
  Graph.mk [(0, NodeAttrs.mk none none none none none),
            (1, NodeAttrs.mk none none none none none)]
    [(0, 1, none)]

/-- The number of distinct Accomplice nodes adjacent to f in G. -/
def accNeighborCount (G : Graph) (f : Nat) : Nat :=
  ((accomplicesOf G).filter (fun a => hasEdge G f a)).length

/-- The number of edges from f to Accomplice nodes of Ga that did not
exist in Gb (the graph before the augmentation pass). -/
def newAccEdgeCount (Gb Ga : Graph) (f : Nat) : Nat :=
  ((accomplicesOf Ga).filter (fun a => hasEdge Ga f a && !hasEdge Gb f a)).length

/-- Either f is not a Fraud node of G, or f has at least
min(k, number of Accomplice nodes of G) Accomplice neighbors in G2. -/
def fraudMinDegB (G : Graph) (k : Nat) (G2 : Graph) (f : Nat) : Bool :=
  !(trueStateOf G f == some "Fraud") ||
    Nat.ble (min k (accomplicesOf G).length) (accNeighborCount G2 f)

/-- Labeled two-node fixture: a Fraud node already linked to the only
Accomplice node. -/
def cexG : Graph :=
  Graph.mk [(0, NodeAttrs.mk (some "Fraud") none none none none),
            (1, NodeAttrs.mk (some "Accomplice") none none none none)]
    [(0, 1, none)]

/-- Labeled three-node fixture with no edges: one Fraud node and two
Accomplice nodes. -/
def cexG2 : Graph :=
  Graph.mk [(0, NodeAttrs.mk (some "Fraud") none none none none),
            (1, NodeAttrs.mk (some "Accomplice") none none none none),
            (2, NodeAttrs.mk (some "Accomplice") none none none none)]
    []

/-- A complete generation run on the two-node base, target one edge. -/
def wRes : GenResult := generateCore 2 1 none none baseBA2 (Rng.mk 42) 3

/-- The graph of that run. -/
def wG : Graph :=
  match wRes with
  | GenResult.ok G _ => G
  | _ => Graph.mk [] []

/-- The final random state of that run. -/
def wRng : Rng :=
  match wRes with
  | GenResult.ok _ r => r
  | _ => Rng.mk 0

/-! ### Shared lemmas -/

theorem randSample2_ne {l : List Nat} {r : Rng} {a b : Nat} {r' : Rng}
    (h : randSample2 l r = some (a, b, r')) (hnd : l.Nodup) : a ≠ b := by
  unfold randSample2 at h
  split at h
  case isFalse => exact absurd h (by simp)
  case isTrue hlen =>
    simp only [Option.some.injEq, Prod.mk.injEq] at h
    obtain ⟨ha, hb, -⟩ := h
    have hpos : 0 < l.length := by omega
    have hi : (rngNext r).1 % l.length < l.length := Nat.mod_lt _ hpos
    have hj0 : (rngNext (rngNext r).2).1 % (l.length - 1) < l.length - 1 :=
      Nat.mod_lt _ (by omega)
    set i := (rngNext r).1 % l.length with hidef
    set j0 := (rngNext (rngNext r).2).1 % (l.length - 1) with hj0def
    set j := if j0 < i then j0 else j0 + 1 with hjdef
    have hij : i ≠ j ∧ j < l.length := by
      by_cases hc : j0 < i
      · constructor
        · simp only [hjdef, if_pos hc]; omega
        · simp only [hjdef, if_pos hc]; omega
      · constructor
        · simp only [hjdef, if_neg hc]; omega
        · simp only [hjdef, if_neg hc]; omega
    have hga : l.getD i 0 = l.get ⟨i, hi⟩ := by
      simp [List.getD_eq_getElem?_getD, List.getElem?_eq_getElem hi, List.get_eq_getElem]
    have hgb : l.getD j 0 = l.get ⟨j, hij.2⟩ := by
      simp [List.getD_eq_getElem?_getD, List.getElem?_eq_getElem hij.2, List.get_eq_getElem]
    intro hab
    apply hij.1
    have : l.get ⟨i, hi⟩ = l.get ⟨j, hij.2⟩ := by
      rw [← hga, ← hgb, ha, hb, hab]
    have := (List.Nodup.get_inj_iff hnd).1 this
    exact congrArg Fin.val this

/-- On the two-element node list, sampling returns one of the two orders
of the single unordered pair. -/
theorem randSample2_two (r : Rng) :
    randSample2 [0, 1] r = some (0, 1, (rngNext (rngNext r).2).2) ∨
    randSample2 [0, 1] r = some (1, 0, (rngNext (rngNext r).2).2) := by
  rcases Nat.mod_two_eq_zero_or_one (rngNext r).1 with hi | hi
  · left; simp [randSample2, hi, Nat.mod_one]
  · right; simp [randSample2, hi, Nat.mod_one]

theorem addEdge_nodes (G : Graph) (u v : Nat) (w : Option Frac) :
    (addEdge G u v w).nodes = G.nodes := rfl

theorem edgeMemDir_false_iff {G : Graph} {u v : Nat} :
    edgeMemDir G u v = false ↔ ∀ e ∈ G.edges, ¬(e.1 = u ∧ e.2.1 = v) := by
  simp [edgeMemDir, List.any_eq_false, not_and]

theorem simpleEdges_addEdge {G : Graph} {u v : Nat} {w : Option Frac}
    (h1 : edgeMemDir G u v = false) (h2 : edgeMemDir G v u = false)
    (hS : SimpleEdges G) : SimpleEdges (addEdge G u v w) := by
  unfold SimpleEdges addEdge at *
  rw [List.pairwise_append]
  refine ⟨hS, List.pairwise_singleton _ _, ?_⟩
  intro e he f hf
  simp only [List.mem_singleton] at hf
  subst hf
  rw [edgeMemDir_false_iff] at h1 h2
  have n1 := h1 e he
  have n2 := h2 e he
  simp only [sameUnorderedPair]
  simp only [Bool.or_eq_false_iff, Bool.and_eq_false_iff]
  constructor
  · by_cases hc : e.1 = u
    · right; simp only [beq_eq_false_iff_ne]; intro hv; exact n1 ⟨hc, hv⟩
    · left; simp only [beq_eq_false_iff_ne]; exact hc
  · by_cases hc : e.1 = v
    · right; simp only [beq_eq_false_iff_ne]; intro hv; exact n2 ⟨hc, hv⟩
    · left; simp only [beq_eq_false_iff_ne]; exact hc

theorem noSelfLoopB_addEdge {G : Graph} {u v : Nat} {w : Option Frac}
    (huv : u ≠ v) (h : noSelfLoopB G = true) :
    noSelfLoopB (addEdge G u v w) = true := by
  unfold noSelfLoopB addEdge at *
  simp only [List.all_append, List.all_cons, List.all_nil, Bool.and_eq_true]
  refine ⟨h, ?_, trivial⟩
  simp [huv]

/-- The invariants that the top-up loop establishes whenever it finishes:
node list untouched, target reached, no duplicate edge introduced, no
self-loop introduced (the sampled endpoints are distinct). -/
theorem topUpLoop_ok (t : Int) (l : List Nat) :
    ∀ (fuel : Nat) (G : Graph) (r : Rng) (G' : Graph) (r' : Rng),
      topUpLoop t l fuel G r = GenResult.ok G' r' →
      G'.nodes = G.nodes ∧ t ≤ (edgeCount G' : Int) ∧
      (SimpleEdges G → SimpleEdges G') ∧
      (l.Nodup → noSelfLoopB G = true → noSelfLoopB G' = true) := by
  intro fuel
  induction fuel with
  | zero =>
    intro G r G' r' h
    unfold topUpLoop at h
    split at h
    · exact absurd h (by simp)
    · rename_i hlt
      obtain ⟨rfl, rfl⟩ : G = G' ∧ r = r' := by
        cases h; exact ⟨rfl, rfl⟩
      exact ⟨rfl, by omega, id, fun _ => id⟩
  | succ fuel ih =>
    intro G r G' r' h
    unfold topUpLoop at h
    split at h
    case isFalse hlt =>
      obtain ⟨rfl, rfl⟩ : G = G' ∧ r = r' := by
        cases h; exact ⟨rfl, rfl⟩
      exact ⟨rfl, by omega, id, fun _ => id⟩
    case isTrue hlt =>
      split at h
      case h_1 hs => exact absurd h (by simp)
      case h_2 a b r1 hs =>
        split at h
        case isTrue hg =>
          obtain ⟨hm1, hm2⟩ : edgeMemDir G a b = false ∧ edgeMemDir G b a = false := by
            simp only [Bool.and_eq_true, Bool.not_eq_true'] at hg
            exact hg
          obtain ⟨hn, hc, hsimp, hself⟩ := ih _ _ _ _ h
          refine ⟨hn.trans (addEdge_nodes _ _ _ _), hc, ?_, ?_⟩
          · exact fun hS => hsimp (simpleEdges_addEdge hm1 hm2 hS)
          · exact fun hnd hG =>
              hself hnd (noSelfLoopB_addEdge (randSample2_ne hs hnd) hG)
        case isFalse hg =>
          exact ih _ _ _ _ h

/-- Whenever the role-assignment loop finishes, the node identifiers are
unchanged and in the same order. -/
theorem assignRolesList_ok_keys (sd ib : List (String × Frac)) :
    ∀ (ns : List (Nat × NodeAttrs)) (r : Rng) (ns' : List (Nat × NodeAttrs)) (r' : Rng),
      assignRolesList sd ib ns r = RolesResult.ok ns' r' →
      ns'.map Prod.fst = ns.map Prod.fst := by
  intro ns
  induction ns with
  | nil =>
    intro r ns' r' h
    cases h; rfl
  | cons p rest ih =>
    intro r ns' r' h
    obtain ⟨n, a⟩ := p
    unfold assignRolesList at h
    split at h
    case h_1 => exact absurd h (by simp)
    case h_2 => exact absurd h (by simp)
    case h_3 a1 r1 ha =>
      split at h
      case h_1 => exact absurd h (by simp)
      case h_2 => exact absurd h (by simp)
      case h_3 rest' r2 hrec =>
        obtain ⟨rfl, rfl⟩ : (n, a1) :: rest' = ns' ∧ r2 = r' := by
          cases h; exact ⟨rfl, rfl⟩
        simp [ih _ _ _ hrec]

/-! ### Claim theorems -/

/-- Claim C1: for a valid configuration (at least two nodes, non-negative target
edge count), whenever generate_synthetic_network returns a graph, that
graph has exactly num_nodes nodes, at least target_edges edges, and no
duplicate edge: at most one edge per unordered node pair.  The hypotheses
on base state what the external Barabási–Albert call guarantees: nodes
0..num_nodes-1 and a simple edge set. -/
theorem claim_C1_generated_graph_shape
    (num_nodes : Nat) (target_edges : Int)
    (initial_belief state_distribution : Option (List (String × Frac)))
    (base : Graph) (r : Rng) (fuel : Nat) (G : Graph) (rOut : Rng)
    (hn : 2 ≤ num_nodes) (ht : 0 ≤ target_edges)
    (hbase : nodeKeys base = List.range num_nodes)
    (hsimple : SimpleEdges base)
    (hrun : generateCore num_nodes target_edges initial_belief
      state_distribution base r fuel = GenResult.ok G rOut) :
    G.nodes.length = num_nodes ∧ target_edges ≤ (edgeCount G : Int) ∧
      SimpleEdges G := by
  simp only [generateCore] at hrun
  split at hrun
  case h_1 => exact absurd hrun (by simp)
  case h_2 => exact absurd hrun (by simp)
  case h_3 => exact absurd hrun (by simp)
  case h_4 G1 r1 htop =>
    split at hrun
    case h_1 => exact absurd hrun (by simp)
    case h_2 => exact absurd hrun (by simp)
    case h_3 ns r2 hassign =>
      obtain ⟨rfl, rfl⟩ : Graph.mk ns G1.edges = G ∧ r2 = rOut := by
        cases hrun; exact ⟨rfl, rfl⟩
      obtain ⟨hnodes, hcount, hsimp2, -⟩ := topUpLoop_ok _ _ _ _ _ _ _ htop
      have hkeys := assignRolesList_ok_keys _ _ _ _ _ _ hassign
      refine ⟨?_, hcount, ?_⟩
      · have : ns.map Prod.fst = nodeKeys base := by
          rw [hkeys, hnodes]; rfl
        calc ns.length = (ns.map Prod.fst).length := by simp
          _ = (nodeKeys base).length := by rw [this]
          _ = num_nodes := by rw [hbase, List.length_range]
      · exact hsimp2 hsimple

/-- Claim C2: the top-up loop does not terminate once every node pair is already
an edge while the edge count is still below target_edges.  Concretely, for
num_nodes = 2 and target_edges = 2 the only unordered pair 0–1 is already
an edge of the Barabási–Albert base graph, so every sampling draws an
existing pair, no edge is ever added, and the loop guard stays true: the
pipeline exhausts every iteration budget.  This contradicts the spec,
which requires the loop to terminate rather than hang when all pairs are
exhausted before the target is reached. -/
theorem claim_C2_topup_never_terminates :
    ∀ (fuel : Nat) (r : Rng),
      generateCore 2 2 none none baseBA2 r fuel = GenResult.timeout := by
  have hloop : ∀ (fuel : Nat) (r : Rng),
      topUpLoop 2 [0, 1] fuel baseBA2 r = GenResult.timeout := by
    intro fuel
    induction fuel with
    | zero =>
      intro r
      unfold topUpLoop
      rw [if_pos (show ((edgeCount baseBA2 : Int) < 2) by decide)]
    | succ fuel ih =>
      intro r
      unfold topUpLoop
      rw [if_pos (show ((edgeCount baseBA2 : Int) < 2) by decide)]
      rcases randSample2_two r with h | h <;> rw [h] <;> dsimp only <;>
        rw [if_neg (by decide)] <;> exact ih _
  intro fuel r
  simp only [generateCore]
  rw [show nodeKeys baseBA2 = [0, 1] from rfl, hloop fuel r]

/-- Claim C4: the pipeline is a deterministic function of the seed and the
configuration.  The source seeds the global random module with the fixed
seed 42 before any random draw, and the Barabási–Albert generator draws
from that same seeded source, so its output (the parameter base) is also
determined by the seed; under equal configurations and equal base graphs,
two runs return identical graphs: same node list with identical
attributes and same edge list with identical weights. -/
theorem claim_C4_deterministic
    (n1 n2 : Nat) (t1 t2 : Int)
    (ib1 ib2 sd1 sd2 : Option (List (String × Frac)))
    (b1 b2 : Graph) (fuel1 fuel2 : Nat)
    (G1 G2 : Graph) (r1 r2 : Rng)
    (hn : n1 = n2) (ht : t1 = t2) (hib : ib1 = ib2) (hsd : sd1 = sd2)
    (hb : b1 = b2) (hf : fuel1 = fuel2)
    (h1 : generate_synthetic_network n1 t1 ib1 sd1 b1 fuel1 = GenResult.ok G1 r1)
    (h2 : generate_synthetic_network n2 t2 ib2 sd2 b2 fuel2 = GenResult.ok G2 r2) :
    G1.nodes = G2.nodes ∧ G1.edges = G2.edges := by
  subst hn ht hib hsd hb hf
  rw [h1] at h2
  obtain ⟨rfl, rfl⟩ : G1 = G2 ∧ r1 = r2 := by
    cases h2; exact ⟨rfl, rfl⟩
  exact ⟨rfl, rfl⟩

theorem randChoices3_mem {wF wA wH : Frac} {r : Rng} {s : String} {r' : Rng}
    (h : randChoices3 wF wA wH r = some (s, r')) :
    (s == "Fraud" || s == "Accomplice" || s == "Honest") = true := by
  simp only [randChoices3] at h
  split at h
  · exact absurd h (by simp)
  · simp only [Option.some.injEq, Prod.mk.injEq] at h
    obtain ⟨hs, -⟩ := h
    subst hs
    split
    · rfl
    · split <;> rfl

theorem randChoice3_mem (r : Rng) :
    ((randChoice3 r).1 == "Fraud" || (randChoice3 r).1 == "Accomplice" ||
      (randChoice3 r).1 == "Honest") = true := by
  have h3 : (rngNext r).1 % 3 = 0 ∨ (rngNext r).1 % 3 = 1 ∨ (rngNext r).1 % 3 = 2 := by
    omega
  rcases h3 with h | h | h <;> simp [randChoice3, h, stateCategories]

/-- All attributes a successful per-node assignment writes: the beliefs are
the configured prior entries and both role fields are valid categories. -/
theorem assignOne_ok_attrs {sd ib : List (String × Frac)} {r : Rng}
    {a : NodeAttrs} {r1 : Rng}
    (h : assignOne sd ib r = AttrResult.ok a r1) :
    beliefsOk ib a = true ∧ nodeFullyLabeled a = true := by
  unfold assignOne at h
  split at h
  case h_1 => exact absurd h (by simp)
  case h_2 wF hsdF =>
    split at h
    case h_1 => exact absurd h (by simp)
    case h_2 wA hsdA =>
      split at h
      case h_1 => exact absurd h (by simp)
      case h_2 wH hsdH =>
        split at h
        case h_1 => exact absurd h (by simp)
        case h_2 ts rts hcs =>
          split at h
          case h_1 => exact absurd h (by simp)
          case h_2 bF hibF =>
            split at h
            case h_1 => exact absurd h (by simp)
            case h_2 bA hibA =>
              split at h
              case h_1 => exact absurd h (by simp)
              case h_2 bH hibH =>
                obtain ⟨rfl, -⟩ :
                    NodeAttrs.mk (some ts) (some (randChoice3 rts).1)
                      (some bF) (some bA) (some bH) = a ∧ (randChoice3 rts).2 = r1 := by
                  cases h; exact ⟨rfl, rfl⟩
                constructor
                · simp [beliefsOk, beliefSum, priorSum, hibF, hibA, hibH]
                · have hts := randChoices3_mem hcs
                  have hst := randChoice3_mem rts
                  simp [nodeFullyLabeled, isValidStateOpt, hts, hst]

/-- List version of the previous lemma: every assigned node satisfies the
per-node attribute facts. -/
theorem assignRolesList_ok_attrs (sd ib : List (String × Frac)) :
    ∀ (ns : List (Nat × NodeAttrs)) (r : Rng) (ns' : List (Nat × NodeAttrs)) (r' : Rng),
      assignRolesList sd ib ns r = RolesResult.ok ns' r' →
      ∀ p ∈ ns', beliefsOk ib p.2 = true ∧ nodeFullyLabeled p.2 = true := by
  intro ns
  induction ns with
  | nil =>
    intro r ns' r' h p hp
    cases h
    exact absurd hp (by simp)
  | cons q rest ih =>
    intro r ns' r' h p hp
    obtain ⟨n, a⟩ := q
    unfold assignRolesList at h
    split at h
    case h_1 => exact absurd h (by simp)
    case h_2 => exact absurd h (by simp)
    case h_3 a1 r1 ha =>
      split at h
      case h_1 => exact absurd h (by simp)
      case h_2 => exact absurd h (by simp)
      case h_3 rest' r2 hrec =>
        obtain ⟨rfl, rfl⟩ : (n, a1) :: rest' = ns' ∧ r2 = r' := by
          cases h; exact ⟨rfl, rfl⟩
        rcases List.mem_cons.1 hp with rfl | hmem
        · exact assignOne_ok_attrs ha
        · exact ih _ _ _ hrec p hmem

/-- Claim C7: after role and belief assignment, the three belief fields of every
node equal the corresponding entries of the configured initial_belief
mapping, and in particular their sum equals the sum of the configured
prior's entries. -/
theorem claim_C7_beliefs_from_prior
    (num_nodes : Nat) (target_edges : Int)
    (initial_belief state_distribution : Option (List (String × Frac)))
    (base : Graph) (r : Rng) (fuel : Nat) (G : Graph) (rOut : Rng)
    (ib : List (String × Frac))
    (hib : initial_belief.getD default_initial_belief = ib)
    (hrun : generateCore num_nodes target_edges initial_belief
      state_distribution base r fuel = GenResult.ok G rOut) :
    G.nodes.all (fun p => beliefsOk ib p.2) = true := by
  simp only [generateCore] at hrun
  split at hrun
  case h_1 => exact absurd hrun (by simp)
  case h_2 => exact absurd hrun (by simp)
  case h_3 => exact absurd hrun (by simp)
  case h_4 G1 r1 htop =>
    split at hrun
    case h_1 => exact absurd hrun (by simp)
    case h_2 => exact absurd hrun (by simp)
    case h_3 ns r2 hassign =>
      obtain ⟨rfl, rfl⟩ : Graph.mk ns G1.edges = G ∧ r2 = rOut := by
        cases hrun; exact ⟨rfl, rfl⟩
      rw [hib] at hassign
      rw [List.all_eq_true]
      intro p hp
      have := (assignRolesList_ok_attrs _ _ _ _ _ _ hassign p hp).1
      simpa using this

/-- Claim C8: after role and belief assignment, every node carries all five
labeling attributes, and both true_state and state lie in exactly the set
of the three categories Fraud, Accomplice, Honest. -/
theorem claim_C8_all_attrs_assigned
    (num_nodes : Nat) (target_edges : Int)
    (initial_belief state_distribution : Option (List (String × Frac)))
    (base : Graph) (r : Rng) (fuel : Nat) (G : Graph) (rOut : Rng)
    (hrun : generateCore num_nodes target_edges initial_belief
      state_distribution base r fuel = GenResult.ok G rOut) :
    G.nodes.all (fun p => nodeFullyLabeled p.2) = true := by
  simp only [generateCore] at hrun
  split at hrun
  case h_1 => exact absurd hrun (by simp)
  case h_2 => exact absurd hrun (by simp)
  case h_3 => exact absurd hrun (by simp)
  case h_4 G1 r1 htop =>
    split at hrun
    case h_1 => exact absurd hrun (by simp)
    case h_2 => exact absurd hrun (by simp)
    case h_3 ns r2 hassign =>
      obtain ⟨rfl, rfl⟩ : Graph.mk ns G1.edges = G ∧ r2 = rOut := by
        cases hrun; exact ⟨rfl, rfl⟩
      rw [List.all_eq_true]
      intro p hp
      have := (assignRolesList_ok_attrs _ _ _ _ _ _ hassign p hp).2
      simpa using this

/-- With a negative target the loop guard is false at entry, so the top-up
loop performs zero iterations whatever the budget. -/
theorem topUpLoop_neg {target_edges : Int} (l : List Nat)
    (fuel : Nat) (G : Graph) (r : Rng) (ht : target_edges < 0) :
    topUpLoop target_edges l fuel G r = GenResult.ok G r := by
  have hng : ¬((edgeCount G : Int) < target_edges) := by omega
  cases fuel with
  | zero => unfold topUpLoop; rw [if_neg hng]
  | succ fuel => unfold topUpLoop; rw [if_neg hng]

theorem randChoices3_isSome {wF wA wH : Frac}
    (htot : Frac.ble (Frac.add (Frac.add wF wA) wH) (Frac.mk 0 1) = false)
    (r : Rng) : ∃ s r1, randChoices3 wF wA wH r = some (s, r1) := by
  simp only [randChoices3]
  rw [if_neg (by simp [htot])]
  exact ⟨_, _, rfl⟩

/-- When both configured dictionaries contain the three category keys and
the state-distribution weights have positive total, the per-node
assignment never fails. -/
theorem assignOne_isOk {sd ib : List (String × Frac)} {wF wA wH bF bA bH : Frac}
    (hsdF : dictGet sd "Fraud" = some wF)
    (hsdA : dictGet sd "Accomplice" = some wA)
    (hsdH : dictGet sd "Honest" = some wH)
    (htot : Frac.ble (Frac.add (Frac.add wF wA) wH) (Frac.mk 0 1) = false)
    (hibF : dictGet ib "Fraud" = some bF)
    (hibA : dictGet ib "Accomplice" = some bA)
    (hibH : dictGet ib "Honest" = some bH)
    (r : Rng) : ∃ a r1, assignOne sd ib r = AttrResult.ok a r1 := by
  obtain ⟨s, r1, hc⟩ := randChoices3_isSome htot r
  unfold assignOne
  rw [hsdF]; dsimp only
  rw [hsdA]; dsimp only
  rw [hsdH]; dsimp only
  rw [hc]; dsimp only
  rw [hibF]; dsimp only
  rw [hibA]; dsimp only
  rw [hibH]; dsimp only
  exact ⟨_, _, rfl⟩

/-- Under the same conditions the whole assignment loop succeeds. -/
theorem assignRolesList_isOk {sd ib : List (String × Frac)}
    {wF wA wH bF bA bH : Frac}
    (hsdF : dictGet sd "Fraud" = some wF)
    (hsdA : dictGet sd "Accomplice" = some wA)
    (hsdH : dictGet sd "Honest" = some wH)
    (htot : Frac.ble (Frac.add (Frac.add wF wA) wH) (Frac.mk 0 1) = false)
    (hibF : dictGet ib "Fraud" = some bF)
    (hibA : dictGet ib "Accomplice" = some bA)
    (hibH : dictGet ib "Honest" = some bH) :
    ∀ (ns : List (Nat × NodeAttrs)) (r : Rng),
      ∃ ns' r', assignRolesList sd ib ns r = RolesResult.ok ns' r' := by
  intro ns
  induction ns with
  | nil => intro r; exact ⟨[], r, rfl⟩
  | cons q rest ih =>
    intro r
    obtain ⟨n, a⟩ := q
    obtain ⟨a1, r1, ha⟩ := assignOne_isOk hsdF hsdA hsdH htot hibF hibA hibH r
    obtain ⟨rest', r2, hrec⟩ := ih r1
    refine ⟨(n, a1) :: rest', r2, ?_⟩
    unfold assignRolesList
    rw [ha]; dsimp only
    rw [hrec]

/-- Claim C3, counterexample: an invalid configuration — target_edges = -1 is
negative — for which the pipeline does not fail at all: it runs the whole
topology and role-assignment stages and returns a graph normally, instead
of reporting a configuration error before any work starts. -/
theorem claim_C3_counterexample :
    (-1 : Int) < 0 ∧
      isOkResult (generateCore 2 (-1) none none baseBA2 (Rng.mk 42) 0) = true :=
  ⟨by decide, by decide⟩

/-- Claim C3, amended: generate_synthetic_network performs no configuration
validation.  With a negative target_edges the top-up loop merely runs zero
iterations and generation completes normally (provided only that the
distribution dictionaries carry the three category keys with positive
total weight — their absence surfaces later, during role assignment, not
before work starts). -/
theorem claim_C3_no_validation
    (num_nodes : Nat) (target_edges : Int)
    (initial_belief state_distribution : Option (List (String × Frac)))
    (base : Graph) (r : Rng) (fuel : Nat)
    (wF wA wH bF bA bH : Frac)
    (ht : target_edges < 0)
    (hsdF : dictGet (state_distribution.getD default_state_distribution) "Fraud" = some wF)
    (hsdA : dictGet (state_distribution.getD default_state_distribution) "Accomplice" = some wA)
    (hsdH : dictGet (state_distribution.getD default_state_distribution) "Honest" = some wH)
    (htot : Frac.ble (Frac.add (Frac.add wF wA) wH) (Frac.mk 0 1) = false)
    (hibF : dictGet (initial_belief.getD default_initial_belief) "Fraud" = some bF)
    (hibA : dictGet (initial_belief.getD default_initial_belief) "Accomplice" = some bA)
    (hibH : dictGet (initial_belief.getD default_initial_belief) "Honest" = some bH) :
    isOkResult (generateCore num_nodes target_edges initial_belief
      state_distribution base r fuel) = true := by
  obtain ⟨ns, r2, hassign⟩ :=
    assignRolesList_isOk hsdF hsdA hsdH htot hibF hibA hibH base.nodes r
  simp only [generateCore]
  rw [topUpLoop_neg _ fuel base r ht]; dsimp only
  rw [hassign]
  rfl

/-! ### Witnesses -/

/-- Witness for C1 at the concrete two-node scenario. -/
theorem claim_C1_witness :
    2 ≤ 2 ∧ (0 : Int) ≤ 1 ∧ nodeKeys baseBA2 = List.range 2 ∧
      SimpleEdges baseBA2 ∧
      generateCore 2 1 none none baseBA2 (Rng.mk 42) 3 = GenResult.ok wG wRng ∧
      (wG.nodes.length = 2 ∧ (1 : Int) ≤ (edgeCount wG : Int) ∧ SimpleEdges wG) :=
  ⟨by decide, by decide, by decide, by decide, by decide,
    claim_C1_generated_graph_shape 2 1 none none baseBA2 (Rng.mk 42) 3 wG wRng
      (by decide) (by decide) (by decide) (by decide) (by decide)⟩

/-- Witness for C4: two runs of the seeded pipeline on the same
configuration agree. -/
theorem claim_C4_witness :
    generate_synthetic_network 2 1 none none baseBA2 3 = GenResult.ok wG wRng ∧
      (wG.nodes = wG.nodes ∧ wG.edges = wG.edges) :=
  ⟨by decide,
    claim_C4_deterministic 2 2 1 1 none none none none baseBA2 baseBA2 3 3
      wG wG wRng wRng rfl rfl rfl rfl rfl rfl (by decide) (by decide)⟩

/-- Witness for the amended C3 at the concrete invalid configuration
target_edges = -1 with the default distributions. -/
theorem claim_C3_no_validation_witness :
    (-1 : Int) < 0 ∧
      isOkResult (generateCore 2 (-1) none none baseBA2 (Rng.mk 42) 5) = true :=
  ⟨by decide,
    claim_C3_no_validation 2 (-1) none none baseBA2 (Rng.mk 42) 5
      (Frac.mk 1 10) (Frac.mk 2 10) (Frac.mk 7 10)
      (Frac.mk 1 3) (Frac.mk 1 3) (Frac.mk 1 3)
      (by decide) (by decide) (by decide) (by decide) (by decide)
      (by decide) (by decide) (by decide)⟩

/-- Witness for C7 on the concrete run. -/
theorem claim_C7_witness :
    (none : Option (List (String × Frac))).getD default_initial_belief =
        default_initial_belief ∧
      wG.nodes.all (fun p => beliefsOk default_initial_belief p.2) = true :=
  ⟨rfl,
    claim_C7_beliefs_from_prior 2 1 none none baseBA2 (Rng.mk 42) 3 wG wRng
      default_initial_belief rfl (by decide)⟩

/-- Witness for C8 on the concrete run. -/
theorem claim_C8_witness :
    wG.nodes.all (fun p => nodeFullyLabeled p.2) = true :=
  claim_C8_all_attrs_assigned 2 1 none none baseBA2 (Rng.mk 42) 3 wG wRng
    (by decide)

/-! ### Lemmas about the collusion augmenter -/

theorem addAccEdges_nodes (node : Nat) :
    ∀ (s : List Nat) (G : Graph), (addAccEdges node s G).nodes = G.nodes := by
  intro s
  induction s with
  | nil => intro G; rfl
  | cons b s ih =>
    intro G
    unfold addAccEdges
    split
    · exact ih G
    · exact (ih _).trans (addEdge_nodes _ _ _ _)

theorem addAccEdges_extend (node : Nat) :
    ∀ (s : List Nat) (G : Graph),
      ∃ t, (addAccEdges node s G).edges = G.edges ++ t := by
  intro s
  induction s with
  | nil => intro G; exact ⟨[], by simp [addAccEdges]⟩
  | cons b s ih =>
    intro G
    unfold addAccEdges
    split
    · exact ih G
    · obtain ⟨t, ht⟩ := ih (addEdge G node b none)
      refine ⟨(node, b, none) :: t, ?_⟩
      rw [ht]
      simp [addEdge]

theorem augmentStep_nodes (k : Nat) (st : Graph × Rng) (node : Nat) :
    (augmentStep k st node).1.nodes = st.1.nodes := by
  unfold augmentStep
  split
  · exact addAccEdges_nodes _ _ _
  · rfl

theorem augmentStep_extend (k : Nat) (st : Graph × Rng) (node : Nat) :
    ∃ t, (augmentStep k st node).1.edges = st.1.edges ++ t := by
  unfold augmentStep
  split
  · exact addAccEdges_extend _ _ _
  · exact ⟨[], by simp⟩

theorem foldl_augment_nodes (k : Nat) :
    ∀ (todo : List Nat) (st : Graph × Rng),
      ((todo.foldl (augmentStep k) st).1).nodes = st.1.nodes := by
  intro todo
  induction todo with
  | nil => intro st; rfl
  | cons n todo ih =>
    intro st
    rw [List.foldl_cons]
    exact (ih _).trans (augmentStep_nodes k st n)

theorem foldl_augment_extend (k : Nat) :
    ∀ (todo : List Nat) (st : Graph × Rng),
      ∃ t, ((todo.foldl (augmentStep k) st).1).edges = st.1.edges ++ t := by
  intro todo
  induction todo with
  | nil => intro st; exact ⟨[], by simp⟩
  | cons n todo ih =>
    intro st
    rw [List.foldl_cons]
    obtain ⟨t1, ht1⟩ := augmentStep_extend k st n
    obtain ⟨t2, ht2⟩ := ih (augmentStep k st n)
    exact ⟨t1 ++ t2, by rw [ht2, ht1, List.append_assoc]⟩

theorem hasEdge_extend {G G' : Graph} {t : List (Nat × Nat × Option Frac)}
    (h : G'.edges = G.edges ++ t) {u v : Nat}
    (he : hasEdge G u v = true) : hasEdge G' u v = true := by
  simp only [hasEdge, edgeMemDir, h, List.any_append, Bool.or_eq_true] at he ⊢
  rcases he with h1 | h1
  · exact Or.inl (Or.inl h1)
  · exact Or.inr (Or.inl h1)

theorem addAccEdges_simple (node : Nat) :
    ∀ (s : List Nat) (G : Graph),
      SimpleEdges G → SimpleEdges (addAccEdges node s G) := by
  intro s
  induction s with
  | nil => intro G hS; exact hS
  | cons b s ih =>
    intro G hS
    unfold addAccEdges
    split
    · exact ih G hS
    · rename_i hne
      have hfalse : hasEdge G node b = false := by
        revert hne; cases hasEdge G node b <;> simp
      obtain ⟨hm1, hm2⟩ : edgeMemDir G node b = false ∧ edgeMemDir G b node = false := by
        simpa [hasEdge, Bool.or_eq_false_iff] using hfalse
      exact ih _ (simpleEdges_addEdge hm1 hm2 hS)

theorem augmentStep_simple (k : Nat) (st : Graph × Rng) (node : Nat)
    (hS : SimpleEdges st.1) : SimpleEdges (augmentStep k st node).1 := by
  unfold augmentStep
  split
  · exact addAccEdges_simple _ _ _ hS
  · exact hS

theorem foldl_augment_simple (k : Nat) :
    ∀ (todo : List Nat) (st : Graph × Rng),
      SimpleEdges st.1 → SimpleEdges ((todo.foldl (augmentStep k) st).1) := by
  intro todo
  induction todo with
  | nil => intro st hS; exact hS
  | cons n todo ih =>
    intro st hS
    rw [List.foldl_cons]
    exact ih _ (augmentStep_simple k st n hS)

theorem getD_mod_mem {l : List Nat} (h : ¬l.length = 0) (i : Nat) :
    l.getD (i % l.length) 0 ∈ l := by
  have hi : i % l.length < l.length := Nat.mod_lt _ (by omega)
  rw [List.getD_eq_getElem?_getD, List.getElem?_eq_getElem hi]
  exact List.getElem_mem hi

theorem sampleK_subset :
    ∀ (k : Nat) (l : List Nat) (r : Rng) (a : Nat),
      a ∈ (randSampleK k l r).1 → a ∈ l := by
  intro k
  induction k with
  | zero =>
    intro l r a ha
    exact absurd ha (by simp [randSampleK])
  | succ k ih =>
    intro l r a ha
    unfold randSampleK at ha
    split at ha
    · exact absurd ha (by simp)
    · rename_i hl
      dsimp only at ha
      rcases List.mem_cons.1 ha with rfl | ha'
      · exact getD_mod_mem hl _
      · exact List.erase_subset _ _ (ih _ _ _ ha')

theorem sampleK_len :
    ∀ (k : Nat) (l : List Nat) (r : Rng),
      (randSampleK k l r).1.length = min k l.length := by
  intro k
  induction k with
  | zero => intro l r; simp [randSampleK]
  | succ k ih =>
    intro l r
    unfold randSampleK
    split
    · rename_i hl; simp [hl]
    · rename_i hl
      dsimp only
      rw [List.length_cons, ih]
      rw [List.length_erase_of_mem (getD_mod_mem hl _)]
      omega

theorem sampleK_nodup :
    ∀ (k : Nat) (l : List Nat) (r : Rng),
      l.Nodup → (randSampleK k l r).1.Nodup := by
  intro k
  induction k with
  | zero => intro l r _; simp [randSampleK]
  | succ k ih =>
    intro l r hnd
    unfold randSampleK
    split
    · simp
    · rename_i hl
      dsimp only
      rw [List.nodup_cons]
      constructor
      · intro hmem
        have := sampleK_subset _ _ _ _ hmem
        have := (List.Nodup.mem_erase_iff hnd).1 this
        exact this.1 rfl
      · exact ih _ _ (List.Nodup.erase _ hnd)

theorem hasEdge_addEdge_self (G : Graph) (u v : Nat) (w : Option Frac) :
    hasEdge (addEdge G u v w) u v = true := by
  simp [hasEdge, edgeMemDir, addEdge, List.any_append]

theorem addAccEdges_connects (node : Nat) :
    ∀ (s : List Nat) (G : Graph) (a : Nat),
      a ∈ s → hasEdge (addAccEdges node s G) node a = true := by
  intro s
  induction s with
  | nil => intro G a ha; exact absurd ha (by simp)
  | cons b s ih =>
    intro G a ha
    unfold addAccEdges
    split
    case isTrue hb =>
      rcases List.mem_cons.1 ha with rfl | ha'
      · obtain ⟨t, ht⟩ := addAccEdges_extend node s G
        exact hasEdge_extend ht hb
      · exact ih G a ha'
    case isFalse hb =>
      rcases List.mem_cons.1 ha with rfl | ha'
      · obtain ⟨t, ht⟩ := addAccEdges_extend node s (addEdge G node a none)
        exact hasEdge_extend ht (hasEdge_addEdge_self G node a none)
      · exact ih _ a ha'

theorem addAccEdges_noself (node : Nat) :
    ∀ (s : List Nat) (G : Graph),
      (∀ a ∈ s, node ≠ a) → noSelfLoopB G = true →
      noSelfLoopB (addAccEdges node s G) = true := by
  intro s
  induction s with
  | nil => intro G _ h; exact h
  | cons b s ih =>
    intro G hne h
    unfold addAccEdges
    split
    · exact ih G (fun a ha => hne a (List.mem_cons_of_mem _ ha)) h
    · exact ih _ (fun a ha => hne a (List.mem_cons_of_mem _ ha))
        (noSelfLoopB_addEdge (hne b (List.mem_cons_self _ _)) h)

theorem trueStateOf_congr {G G' : Graph} (h : G'.nodes = G.nodes) (n : Nat) :
    trueStateOf G' n = trueStateOf G n := by
  unfold trueStateOf attrsOf
  rw [h]

theorem accomplicesOf_congr {G G' : Graph} (h : G'.nodes = G.nodes) :
    accomplicesOf G' = accomplicesOf G := by
  unfold accomplicesOf
  rw [show nodeKeys G' = nodeKeys G from by unfold nodeKeys; rw [h]]
  apply List.filter_congr
  intro a _
  rw [trueStateOf_congr h]

theorem accomplicesOf_spec {G : Graph} {a : Nat} (h : a ∈ accomplicesOf G) :
    trueStateOf G a = some "Accomplice" := by
  unfold accomplicesOf at h
  have := List.of_mem_filter h
  simpa [beq_iff_eq] using this

theorem augmentStep_noself (k : Nat) (st : Graph × Rng) (node : Nat)
    (h : noSelfLoopB st.1 = true) :
    noSelfLoopB (augmentStep k st node).1 = true := by
  unfold augmentStep
  split
  case isTrue hf =>
    dsimp only
    apply addAccEdges_noself
    · intro a ha
      have hacc := accomplicesOf_spec (sampleK_subset _ _ _ _ ha)
      have hfr : trueStateOf st.1 node = some "Fraud" := by
        simpa [beq_iff_eq] using hf
      intro heq
      rw [← heq] at hacc
      rw [hfr] at hacc
      exact absurd hacc (by simp)
    · exact h
  case isFalse => exact h

theorem foldl_augment_noself (k : Nat) :
    ∀ (todo : List Nat) (st : Graph × Rng),
      noSelfLoopB st.1 = true →
      noSelfLoopB ((todo.foldl (augmentStep k) st).1) = true := by
  intro todo
  induction todo with
  | nil => intro st h; exact h
  | cons n todo ih =>
    intro st h
    rw [List.foldl_cons]
    exact ih _ (augmentStep_noself k st n h)

theorem augmentStep_fraud (k : Nat) {G : Graph} (r : Rng) {node : Nat}
    (h : trueStateOf G node = some "Fraud") :
    augmentStep k (G, r) node =
      (addAccEdges node
        (randSampleK (min k (accomplicesOf G).length) (accomplicesOf G) r).1 G,
       (randSampleK (min k (accomplicesOf G).length) (accomplicesOf G) r).2) := by
  unfold augmentStep
  dsimp only
  rw [if_pos (by simp [h])]

/-- The central invariant of the collusion pass: once the pass has run,
every Fraud node listed in the iteration is adjacent to at least
min(k, number of Accomplice nodes) distinct Accomplice nodes, because its
own step samples exactly that many distinct accomplices and connects it to
every sampled one, and later steps never remove edges. -/
theorem foldl_augment_fraud (k : Nat) :
    ∀ (todo : List Nat) (G : Graph) (r : Rng),
      (accomplicesOf G).Nodup →
      ∀ f ∈ todo, trueStateOf G f = some "Fraud" →
        min k (accomplicesOf G).length ≤
          accNeighborCount ((todo.foldl (augmentStep k) (G, r)).1) f := by
  intro todo
  induction todo with
  | nil => intro G r _ f hf _; exact absurd hf (by simp)
  | cons n todo ih =>
    intro G r hnd f hf hfraud
    rw [List.foldl_cons]
    rcases List.mem_cons.1 hf with rfl | hmem
    · rw [augmentStep_fraud k r hfraud]
      set s := (randSampleK (min k (accomplicesOf G).length)
        (accomplicesOf G) r).1 with hs
      set r2 := (randSampleK (min k (accomplicesOf G).length)
        (accomplicesOf G) r).2 with hr2
      set G1 := addAccEdges f s G with hG1
      have hslen : s.length = min k (accomplicesOf G).length := by
        rw [hs, sampleK_len]; omega
      have hsnd : s.Nodup := by
        rw [hs]; exact sampleK_nodup _ _ _ hnd
      have hconn : ∀ a ∈ s, hasEdge G1 f a = true := fun a ha =>
        addAccEdges_connects f s G a ha
      obtain ⟨t, ht⟩ := foldl_augment_extend k todo (G1, r2)
      have hnodesF : ((todo.foldl (augmentStep k) (G1, r2)).1).nodes = G.nodes := by
        rw [foldl_augment_nodes k todo (G1, r2)]
        exact addAccEdges_nodes f s G
      have haccF :
          accomplicesOf ((todo.foldl (augmentStep k) (G1, r2)).1) =
            accomplicesOf G := accomplicesOf_congr hnodesF
      have hsub2 : ∀ a ∈ s,
          a ∈ (accomplicesOf ((todo.foldl (augmentStep k) (G1, r2)).1)).filter
            (fun a => hasEdge ((todo.foldl (augmentStep k) (G1, r2)).1) f a) := by
        intro a ha
        rw [List.mem_filter]
        constructor
        · rw [haccF]
          have ha' := ha
          rw [hs] at ha'
          exact sampleK_subset _ _ _ _ ha'
        · exact hasEdge_extend ht (hconn a ha)
      have hle := List.Subperm.length_le (List.subperm_of_subset hsnd hsub2)
      unfold accNeighborCount
      rw [← hslen]
      exact hle
    · have hnodes1 : (augmentStep k (G, r) n).1.nodes = G.nodes :=
        augmentStep_nodes k (G, r) n
      have hacc1 : accomplicesOf (augmentStep k (G, r) n).1 = accomplicesOf G :=
        accomplicesOf_congr hnodes1
      have hts1 : trueStateOf (augmentStep k (G, r) n).1 f = some "Fraud" := by
        rw [trueStateOf_congr hnodes1]; exact hfraud
      have hnd1 : (accomplicesOf (augmentStep k (G, r) n).1).Nodup := by
        rw [hacc1]; exact hnd
      have hres := ih (augmentStep k (G, r) n).1 (augmentStep k (G, r) n).2
        hnd1 f hmem hts1
      rw [hacc1] at hres
      exact hres

/-- Claim C5, counterexample: one Fraud node already linked to the single
Accomplice node, max_accomplice_edges = 1.  The pass samples that
accomplice, finds the edge already present, and adds nothing, so the fraud
node gains zero new edges to accomplices — fewer than
min(1, number of accomplices) = 1.  The claim's guarantee of min(k, |A|)
edges that did not exist before the pass therefore fails. -/
theorem claim_C5_counterexample :
    trueStateOf cexG 0 = some "Fraud" ∧
      newAccEdgeCount cexG (add_fraud_accomplice_edges cexG 1 (Rng.mk 0)).1 0 <
        min 1 (accomplicesOf cexG).length := by decide

/-- Claim C5, amended: after the pass, every Fraud node is adjacent to at least
min(k, number of Accomplice nodes) distinct Accomplice nodes — counting
edges that already existed before the pass — and the pass introduces no
duplicate edge. -/
theorem claim_C5_min_accomplice_degree (G : Graph) (k : Nat) (r : Rng)
    (hnd : (nodeKeys G).Nodup) (hS : SimpleEdges G) :
    ((nodeKeys G).all
        (fun f => fraudMinDegB G k (add_fraud_accomplice_edges G k r).1 f)) = true ∧
      SimpleEdges (add_fraud_accomplice_edges G k r).1 := by
  constructor
  · rw [List.all_eq_true]
    intro f hf
    unfold fraudMinDegB
    by_cases hfr : trueStateOf G f = some "Fraud"
    · have hacc : (accomplicesOf G).Nodup := by
        unfold accomplicesOf
        exact List.Nodup.filter _ hnd
      have hmain := foldl_augment_fraud k (nodeKeys G) G r hacc f hf hfr
      have hble : Nat.ble (min k (accomplicesOf G).length)
          (accNeighborCount (add_fraud_accomplice_edges G k r).1 f) = true := by
        rw [Nat.ble_eq]
        exact hmain
      simp [hble]
    · simp [hfr]
  · exact foldl_augment_simple k (nodeKeys G) (G, r) hS

/-- Claim C6: a second augmentation run never decreases the edge count (each run
only appends edges) and, starting from a duplicate-free graph, two
successive runs leave the edge set duplicate-free. -/
theorem claim_C6_double_run_monotone (G : Graph) (k : Nat) (r1 r2 : Rng)
    (hS : SimpleEdges G) :
    edgeCount G ≤ edgeCount (add_fraud_accomplice_edges G k r1).1 ∧
      edgeCount (add_fraud_accomplice_edges G k r1).1 ≤
        edgeCount (add_fraud_accomplice_edges
          (add_fraud_accomplice_edges G k r1).1 k r2).1 ∧
      SimpleEdges (add_fraud_accomplice_edges
        (add_fraud_accomplice_edges G k r1).1 k r2).1 := by
  obtain ⟨t1, ht1⟩ := foldl_augment_extend k (nodeKeys G) (G, r1)
  obtain ⟨t2, ht2⟩ := foldl_augment_extend k
    (nodeKeys (add_fraud_accomplice_edges G k r1).1)
    ((add_fraud_accomplice_edges G k r1).1, r2)
  have h1 : SimpleEdges (add_fraud_accomplice_edges G k r1).1 :=
    foldl_augment_simple k (nodeKeys G) (G, r1) hS
  refine ⟨?_, ?_, ?_⟩
  · unfold edgeCount
    rw [show (add_fraud_accomplice_edges G k r1).1.edges = G.edges ++ t1 from ht1]
    simp
  · unfold edgeCount
    rw [show (add_fraud_accomplice_edges (add_fraud_accomplice_edges G k r1).1 k r2).1.edges
        = (add_fraud_accomplice_edges G k r1).1.edges ++ t2 from ht2]
    simp
  · exact foldl_augment_simple k _ _ h1

/-- Claim C9: the collusion pass mutates only the edge set — the node list,
including every node's attribute dict (true_state, state, and the three
belief fields), is exactly what it was before the pass. -/
theorem claim_C9_augment_frame (G : Graph) (k : Nat) (r : Rng) :
    (add_fraud_accomplice_edges G k r).1.nodes = G.nodes :=
  foldl_augment_nodes k (nodeKeys G) (G, r)

/-- Claim C10: the generated graph never contains a self-loop: the top-up loop
samples two distinct nodes, and the collusion pass only links a Fraud node
to Accomplice nodes, necessarily different nodes; so no edge joins a node
to itself after either stage.  The hypotheses on base restate what the
external Barabási–Albert call guarantees. -/
theorem claim_C10_no_self_loops
    (num_nodes : Nat) (target_edges : Int)
    (initial_belief state_distribution : Option (List (String × Frac)))
    (base : Graph) (r : Rng) (fuel : Nat) (G : Graph) (rOut : Rng)
    (k : Nat) (r2 : Rng)
    (hbase : nodeKeys base = List.range num_nodes)
    (hself : noSelfLoopB base = true)
    (hrun : generateCore num_nodes target_edges initial_belief
      state_distribution base r fuel = GenResult.ok G rOut) :
    noSelfLoopB G = true ∧
      noSelfLoopB (add_fraud_accomplice_edges G k r2).1 = true := by
  have hnd : (nodeKeys base).Nodup := by
    rw [hbase]; exact List.nodup_range num_nodes
  simp only [generateCore] at hrun
  split at hrun
  case h_1 => exact absurd hrun (by simp)
  case h_2 => exact absurd hrun (by simp)
  case h_3 => exact absurd hrun (by simp)
  case h_4 G1 r1 htop =>
    split at hrun
    case h_1 => exact absurd hrun (by simp)
    case h_2 => exact absurd hrun (by simp)
    case h_3 ns r3 hassign =>
      obtain ⟨rfl, rfl⟩ : Graph.mk ns G1.edges = G ∧ r3 = rOut := by
        cases hrun; exact ⟨rfl, rfl⟩
      have hG1 := (topUpLoop_ok _ _ _ _ _ _ _ htop).2.2.2 hnd hself
      have hGself : noSelfLoopB (Graph.mk ns G1.edges) = true := by
        unfold noSelfLoopB at hG1 ⊢
        exact hG1
      exact ⟨hGself,
        foldl_augment_noself k (nodeKeys (Graph.mk ns G1.edges))
          (Graph.mk ns G1.edges, r2) hGself⟩

/-! ### Witnesses for the augmentation claims -/

/-- Witness for the amended C5 on the three-node fixture, where the pass
adds two edges. -/
theorem claim_C5_witness :
    (nodeKeys cexG2).Nodup ∧ SimpleEdges cexG2 ∧
      (((nodeKeys cexG2).all
          (fun f => fraudMinDegB cexG2 5
            (add_fraud_accomplice_edges cexG2 5 (Rng.mk 7)).1 f)) = true ∧
        SimpleEdges (add_fraud_accomplice_edges cexG2 5 (Rng.mk 7)).1) :=
  ⟨by decide, by decide,
    claim_C5_min_accomplice_degree cexG2 5 (Rng.mk 7) (by decide) (by decide)⟩

/-- Witness for C6 on the three-node fixture. -/
theorem claim_C6_witness :
    SimpleEdges cexG2 ∧
      (edgeCount cexG2 ≤ edgeCount (add_fraud_accomplice_edges cexG2 2 (Rng.mk 3)).1 ∧
        edgeCount (add_fraud_accomplice_edges cexG2 2 (Rng.mk 3)).1 ≤
          edgeCount (add_fraud_accomplice_edges
            (add_fraud_accomplice_edges cexG2 2 (Rng.mk 3)).1 2 (Rng.mk 4)).1 ∧
        SimpleEdges (add_fraud_accomplice_edges
          (add_fraud_accomplice_edges cexG2 2 (Rng.mk 3)).1 2 (Rng.mk 4)).1) :=
  ⟨by decide,
    claim_C6_double_run_monotone cexG2 2 (Rng.mk 3) (Rng.mk 4) (by decide)⟩

/-- Witness for C10 on the concrete two-node run. -/
theorem claim_C10_witness :
    nodeKeys baseBA2 = List.range 2 ∧ noSelfLoopB baseBA2 = true ∧
      (noSelfLoopB wG = true ∧
        noSelfLoopB (add_fraud_accomplice_edges wG 1 (Rng.mk 0)).1 = true) :=
  ⟨by decide, by decide,
    claim_C10_no_self_loops 2 1 none none baseBA2 (Rng.mk 42) 3 wG wRng
      1 (Rng.mk 0) (by decide) (by decide) (by decide)⟩

end SynthNet
